import Mathlib

/-!
Shallow embedding of scripts/generate_diagram.py.

The script reads a spreadsheet, heuristically resolves column names,
normalizes rows into edges, optionally filters them to a focus node and
emits a Graphviz document.  The definitions below translate that code:
strings are Lean strings over their character lists, Python string
methods (lower, strip, substring containment) are modelled over the
character lists, Python floats are modelled as rationals, and the whole
command-line run is a pure function from the input table, the focus
argument and a file-existence flag to an outcome value.
-/

namespace GenerateDiagram

/-- Python whitespace characters recognised by str.strip. -/
def pyIsSpace (c : Char) : Bool :=
  c == ' ' || c == '\t' || c == '\n' || c == '\r' || c == '\x0b' || c == '\x0c'

/-- Models Python str.strip: drop whitespace from both ends. -/
def pyStrip (s : String) : String :=
  ⟨((s.data.dropWhile pyIsSpace).reverse.dropWhile pyIsSpace).reverse⟩

/-- Models Python str.lower (ASCII letters, as used by the script). -/
def pyLower (s : String) : String :=
  ⟨s.data.map Char.toLower⟩

/-- Composition used by find_column: c.lower().strip(). -/
def lowerTrim (s : String) : String :=
  pyStrip (pyLower s)

/-- Boolean test that sub is a prefix of l. -/
def isPrefixList : List Char → List Char → Bool
  | [], _ => true
  | _ :: _, [] => false
  | a :: s, b :: t => a == b && isPrefixList s t

/-- Boolean test that sub occurs contiguously inside l: Python sub in l. -/
def isSubList (sub : List Char) (l : List Char) : Bool :=
  match l with
  | [] => sub.isEmpty
  | _ :: t => isPrefixList sub l || isSubList sub t

/-- Models the Python expression sub in hay on strings. -/
def pyContains (hay sub : String) : Bool :=
  isSubList sub.data hay.data

/-- One step of the dict comprehension in find_column: Python dict
assignment keeps the position of an existing key and overwrites its
value, otherwise appends the new pair at the end. -/
def dictInsert (d : List (String × String)) (k v : String) : List (String × String) :=
  if d.any (fun p => decide (p.1 = k)) then
    d.map (fun p => if p.1 = k then (k, v) else p)
  else d ++ [(k, v)]

/-- The dict comprehension in find_column, keyed on the lowercased and
stripped column name, valued by the original column name. -/
def buildCols (columns : List String) : List (String × String) :=
  columns.foldl (fun d c => dictInsert d (lowerTrim c) c) []

/-- Translation of find_column: scan candidates in order, and for each
candidate scan the dict items in order, returning the original column
name of the first key containing the candidate. -/
def find_column (columns candidates : List String) : Option String :=
  candidates.findSome? (fun cand =>
    ((buildCols columns).find? (fun p => isSubList cand.data p.1.data)).map (fun p => p.2))

/-- Modelled from the spec: return the first actual column name whose
lowercased, trimmed form contains any candidate substring, trying
candidates in the given order and column names in their original
order. -/
def find_column_spec (columns candidates : List String) : Option String :=
  candidates.findSome? (fun cand =>
    columns.find? (fun c => isSubList cand.data (lowerTrim c).data))

/-- A raw spreadsheet cell: missing (None or NaN), an integer, or a
text value. -/
inductive Cell where
  | na : Cell
  | int : Int → Cell
  | str : String → Cell
deriving DecidableEq

/-- Translation of normalize: missing cells give None, other cells are
converted to text and stripped. -/
def normalize : Cell → Option String
  | Cell.na => none
  | Cell.int n => some (pyStrip (toString n))
  | Cell.str s => some (pyStrip s)

/-- Digits of a decimal digit list, most significant first. -/
def digitsToNat (ds : List Char) : Nat :=
  ds.foldl (fun acc c => acc * 10 + (c.toNat - 48)) 0

/-- Models Python float(s) on the numeric literal grammar used by the
script: optional surrounding whitespace, optional sign, an integer part
and optional fractional part with at least one digit, and an optional
exponent.  Returns the exact rational value, or none when parsing
fails. -/
def pyFloat? (s : String) : Option Rat :=
  let cs := (pyStrip s).data
  let signed := cs.head? = some '-'
  let cs1 := if cs.head? = some '-' || cs.head? = some '+' then cs.tail else cs
  let ip := cs1.takeWhile Char.isDigit
  let cs2 := cs1.dropWhile Char.isDigit
  let fp := if cs2.head? = some '.' then cs2.tail.takeWhile Char.isDigit else []
  let cs3 := if cs2.head? = some '.' then cs2.tail.dropWhile Char.isDigit else cs2
  if ip.isEmpty && fp.isEmpty then none
  else
    let base : Nat := digitsToNat ip * Nat.pow 10 fp.length + digitsToNat fp
    let num0 : Int := if signed then -(Int.ofNat base) else Int.ofNat base
    let den0 : Nat := Nat.pow 10 fp.length
    match cs3 with
    | [] => some (mkRat num0 den0)
    | e :: r =>
      if e == 'e' || e == 'E' then
        let eneg := r.head? = some '-'
        let r1 := if r.head? = some '-' || r.head? = some '+' then r.tail else r
        let ed := r1.takeWhile Char.isDigit
        let r2 := r1.dropWhile Char.isDigit
        if ed.isEmpty || !r2.isEmpty then none
        else if eneg then some (mkRat num0 (den0 * Nat.pow 10 (digitsToNat ed)))
        else some (mkRat (num0 * Int.ofNat (Nat.pow 10 (digitsToNat ed))) den0)
      else none

/-- Models Python int() applied to a float value: truncation toward
zero. -/
def ratTrunc (q : Rat) : Int :=
  Int.tdiv q.num (q.den : Int)

/-- Translation of the direction block in main: missing gives None,
numeric coercion via int(float(raw)) truncates, and on failure the
decimal digits of the stripped text are concatenated and parsed. -/
def coerceDirection : Cell → Option Int
  | Cell.na => none
  | Cell.int n => some (ratTrunc (mkRat n 1))
  | Cell.str s =>
    match pyFloat? s with
    | some q => some (ratTrunc q)
    | none =>
      let ds := (pyStrip s).data.filter Char.isDigit
      if ds.isEmpty then none else some (Int.ofNat (digitsToNat ds))

/-- Modelled from the spec: numeric values are truncated to an integer,
otherwise all decimal digit characters of the text are extracted,
concatenated and parsed; absent when there are no digits. -/
def directionSpec : Cell → Option Int
  | Cell.na => none
  | Cell.int n => some n
  | Cell.str s =>
    match pyFloat? s with
    | some q => some (ratTrunc q)
    | none =>
      let ds := s.data.filter Char.isDigit
      if ds.isEmpty then none else some (Int.ofNat (digitsToNat ds))

/-- A normalized edge as appended by the row loop in main. -/
structure Edge where
  src : String
  dst : String
  iface : String
  inttype : Option String
  dir : Option Int
deriving DecidableEq

/-- Python truthiness of an optional string: None and the empty string
are falsy. -/
def truthy : Option String → Bool
  | none => false
  | some s => !s.isEmpty

/-- Translation of one iteration of the row loop in main: normalize the
three required cells, skip the row when any is missing or blank, and
otherwise build the edge with the optional interface type and the
coerced direction. -/
def rowEdge (fromCol toCol ifaceCol : String) (inttypeCol dirCol : Option String)
    (row : String → Cell) : Option Edge :=
  match normalize (row fromCol), normalize (row toCol), normalize (row ifaceCol) with
  | some s, some d, some i =>
    if s.isEmpty || d.isEmpty || i.isEmpty then none
    else
      some { src := s, dst := d, iface := i
             inttype := match inttypeCol with
               | some c => normalize (row c)
               | none => none
             dir := coerceDirection (match dirCol with
               | some c => row c
               | none => Cell.na) }
  | _, _, _ => none

/-- The full row loop: edges are appended in row order. -/
def tableEdges (fromCol toCol ifaceCol : String) (inttypeCol dirCol : Option String)
    (rows : List (String → Cell)) : List Edge :=
  rows.filterMap (rowEdge fromCol toCol ifaceCol inttypeCol dirCol)

/-- Translation of the focus filter in main: keep the edges whose
lowercased source or destination equals the lowercased focus string. -/
def focusFilter (focus : String) (edges : List Edge) : List Edge :=
  edges.filter (fun e =>
    decide (pyLower e.src = pyLower focus) || decide (pyLower e.dst = pyLower focus))

/-- Python: focus = args.focus.strip() if args.focus else None. -/
def parsedFocus : Option String → Option String
  | none => none
  | some s => if s.isEmpty then none else some (pyStrip s)

/-- The focus value used by the later truthiness tests: the stripped
argument when it is nonempty. -/
def activeFocus (focusArg : Option String) : Option String :=
  match parsedFocus focusArg with
  | none => none
  | some t => if t.isEmpty then none else some t

/-- Translation of the color mapping in the edge loop: a nonempty
interface type containing file gives red, otherwise one containing
webservice or web service gives blue, otherwise no explicit color. -/
def edgeColor : Option String → Option String
  | none => none
  | some t0 =>
    if t0.isEmpty then none
    else
      let t := pyLower t0
      if pyContains t ("file") then some "red"
      else if pyContains t ("webservice") || pyContains t ("web service") then some "blue"
      else none

/-- Translation of the direction handling in the edge loop. -/
def edgeDir (dirVal : Option Int) : String :=
  if dirVal = some 2 then "both" else "forward"

/-- One emitted Graphviz edge statement. -/
structure EdgeStmt where
  src : String
  dst : String
  label : String
  color : Option String
  fontcolor : Option String
  dir : String
deriving DecidableEq

/-- The edge statement produced for one edge by the emit loop. -/
def edgeStmtOf (e : Edge) : EdgeStmt :=
  { src := e.src, dst := e.dst, label := e.iface
    color := edgeColor e.inttype
    fontcolor := edgeColor e.inttype
    dir := edgeDir e.dir }

/-- All endpoints of the edge list, in encounter order. -/
def endpointList (edges : List Edge) : List String :=
  edges.flatMap (fun e => [e.src, e.dst])

/-- The string order used by Python sorted: lexicographic comparison of
the code point sequences. -/
def strLe (a b : String) : Prop :=
  a.data ≤ b.data

instance : DecidableRel strLe :=
  fun a b => inferInstanceAs (Decidable (a.data ≤ b.data))

/-- The node statements: the set of endpoints, emitted in sorted
order. -/
def nodeList (edges : List Edge) : List String :=
  List.insertionSort strLe (endpointList edges).dedup

/-- The deterministic part of the emitted Graphviz document: sorted
node statements, the legend anchor (the lexicographically first node),
and one edge statement per edge in encounter order. -/
structure GraphDoc where
  nodes : List String
  legendAnchor : Option String
  edgeStmts : List EdgeStmt
deriving DecidableEq

/-- Build the graph document from the final edge list. -/
def buildDoc (edges : List Edge) : GraphDoc :=
  { nodes := nodeList edges
    legendAnchor := (nodeList edges).head?
    edgeStmts := edges.map edgeStmtOf }

/-- The output base name: architecture, with the focus appended after
replacing spaces by underscores. -/
def baseName (focus : Option String) : String :=
  match focus with
  | some f => "architecture_" ++ ⟨f.data.map (fun c => if c = ' ' then '_' else c)⟩
  | none => "architecture"

/-- The input table: ordered column names and rows mapping column names
to cells. -/
structure Table where
  columns : List String
  rows : List (String → Cell)

/-- Candidate list for the source column. -/
def fromCandidates : List String :=
  ["from_app", "from-app", "from", "from app"]

/-- Candidate list for the destination column. -/
def toCandidates : List String :=
  ["to_app", "to-app", "to", "to app", "to_app"]

/-- Candidate list for the interface name column. -/
def ifaceCandidates : List String :=
  ["interface_name", "interface-name", "interface", "interface name"]

/-- Candidate list for the optional interface type column. -/
def inttypeCandidates : List String :=
  ["int_type", "int-type", "interface_type", "interface-type", "int type",
   "interface type", "int_type"]

/-- Candidate list for the optional direction column. -/
def dirCandidates : List String :=
  ["direction", "dir", "Direction", "Direction"]

/-- Resolved source column of a table. -/
def resolvedFrom (t : Table) : Option String :=
  find_column t.columns fromCandidates

/-- Resolved destination column of a table. -/
def resolvedTo (t : Table) : Option String :=
  find_column t.columns toCandidates

/-- Resolved interface name column of a table. -/
def resolvedIface (t : Table) : Option String :=
  find_column t.columns ifaceCandidates

/-- Resolved optional interface type column of a table. -/
def resolvedInttype (t : Table) : Option String :=
  find_column t.columns inttypeCandidates

/-- Resolved optional direction column of a table. -/
def resolvedDir (t : Table) : Option String :=
  find_column t.columns dirCandidates

/-- The edge list after normalization and the optional focus filter. -/
def finalEdges (t : Table) (focusArg : Option String) : List Edge :=
  match resolvedFrom t, resolvedTo t, resolvedIface t with
  | some fc, some tc, some ic =>
    let edges := tableEdges fc tc ic (resolvedInttype t) (resolvedDir t) t.rows
    match activeFocus focusArg with
    | some f => focusFilter f edges
    | none => edges
  | _, _, _ => []

/-- Possible terminations of one run of the script. -/
inductive Outcome where
  | missingFile : Outcome
  | missingColumns : Option String → Option String → Option String → List String → Outcome
  | noEdges : Outcome
  | output : String → GraphDoc → Outcome
deriving DecidableEq

/-- The exit status of each termination: sys.exit(2) for the missing
file, sys.exit(3) for unresolved columns, sys.exit(0) for the empty
edge list, and the implicit status 0 on normal completion. -/
def exitCode : Outcome → Nat
  | Outcome.missingFile => 2
  | Outcome.missingColumns _ _ _ _ => 3
  | Outcome.noEdges => 0
  | Outcome.output _ _ => 0

/-- Python prints None for an unresolved column. -/
def optShow : Option String → String
  | none => "None"
  | some s => s

/-- The console lines printed by each termination, as far as the claims
need them. -/
def outputLines : Outcome → List String
  | Outcome.missingFile => ["Excel file not found at Input/Application_Inventory.xlsx"]
  | Outcome.missingColumns f t i cols =>
    ["Could not locate required columns. Found:",
     "  from_col: " ++ optShow f,
     "  to_col: " ++ optShow t,
     "  iface_col: " ++ optShow i,
     "Columns present in the sheet:"] ++ cols.map (fun c => " - " ++ c)
  | Outcome.noEdges => ["No valid edges found in the spreadsheet."]
  | Outcome.output base _ => ["Wrote DOT file to: Output/Diagrams/" ++ base ++ ".dot"]

/-- Whether the run reaches os.makedirs for the output directory: only
the normal completion does. -/
def createsOutDir : Outcome → Bool
  | Outcome.output _ _ => true
  | _ => false

/-- The files the run is guaranteed to write: only the DOT file of a
normal completion. -/
def writtenFiles : Outcome → List String
  | Outcome.output base _ => ["Output/Diagrams/" ++ base ++ ".dot"]
  | _ => []

/-- Translation of main as a pure function: check the input file, load
the table, resolve columns, normalize and filter rows, and either stop
at one of the terminations or emit the graph document. -/
def run (fileExists : Bool) (t : Table) (focusArg : Option String) : Outcome :=
  if fileExists then
    if truthy (resolvedFrom t) && truthy (resolvedTo t) && truthy (resolvedIface t) then
      if (finalEdges t focusArg).isEmpty then Outcome.noEdges
      else Outcome.output (baseName (activeFocus focusArg)) (buildDoc (finalEdges t focusArg))
    else Outcome.missingColumns (resolvedFrom t) (resolvedTo t) (resolvedIface t) t.columns
  else Outcome.missingFile

/-- A concrete row used by witnesses: source cell needing a strip,
destination and interface name present, all other columns missing. -/
def sampleRow : String → Cell := fun c =>
  if c = "F" then Cell.str " A "
  else if c = "T" then Cell.str "B"
  else if c = "I" then Cell.str "x" else Cell.na

/-- A concrete table used by witnesses: standard column names and two
rows, one towards crm and one towards CRM-Legacy. -/
def crmTable : Table :=
  { columns := ["From_App", "To_App", "Interface_Name"]
    rows := [fun c => if c = "From_App" then Cell.str "App1"
                      else if c = "To_App" then Cell.str "crm"
                      else if c = "Interface_Name" then Cell.str "I1" else Cell.na,
             fun c => if c = "From_App" then Cell.str "App1"
                      else if c = "To_App" then Cell.str "CRM-Legacy"
                      else if c = "Interface_Name" then Cell.str "I2" else Cell.na] }

/-- A table with the standard column names and one row missing every
cell, so that normalization drops the row. -/
def emptyRowTable : Table :=
  { columns := ["From_App", "To_App", "Interface_Name"]
    rows := [fun _ => Cell.na] }

/-! Lemmas about the dict built by find_column. -/

/-- Keys of the dict after one insertion: the old keys together with
the inserted key. -/
theorem dictInsert_key_iff (d : List (String × String)) (k v s : String) :
    (∃ p ∈ dictInsert d k v, p.1 = s) ↔ (∃ p ∈ d, p.1 = s) ∨ k = s := by
  unfold dictInsert
  by_cases h : d.any (fun p => decide (p.1 = k)) = true
  · rw [if_pos h]
    constructor
    · rintro ⟨p, hp, hps⟩
      rcases List.mem_map.mp hp with ⟨q, hq, rfl⟩
      by_cases hqk : q.1 = k
      · rw [if_pos hqk] at hps
        exact Or.inr hps
      · rw [if_neg hqk] at hps
        exact Or.inl ⟨q, hq, hps⟩
    · rintro (⟨p, hp, hps⟩ | rfl)
      · by_cases hpk : p.1 = k
        · exact ⟨(k, v), List.mem_map.mpr ⟨p, hp, by rw [if_pos hpk]⟩, hpk ▸ hps⟩
        · exact ⟨p, List.mem_map.mpr ⟨p, hp, by rw [if_neg hpk]⟩, hps⟩
      · obtain ⟨q, hq, hqk⟩ := List.any_eq_true.mp h
        have hqk : q.1 = k := of_decide_eq_true hqk
        exact ⟨(k, v), List.mem_map.mpr ⟨q, hq, by rw [if_pos hqk]⟩, rfl⟩
  · rw [if_neg h]
    constructor
    · rintro ⟨p, hp, hps⟩
      rcases List.mem_append.mp hp with hpd | hpk
      · exact Or.inl ⟨p, hpd, hps⟩
      · rw [List.mem_singleton.mp hpk] at hps
        exact Or.inr hps
    · rintro (⟨p, hp, hps⟩ | rfl)
      · exact ⟨p, List.mem_append.mpr (Or.inl hp), hps⟩
      · exact ⟨(k, v), List.mem_append.mpr (Or.inr (List.mem_singleton.mpr rfl)), rfl⟩

/-- Inserting a key absent from the dict appends the pair at the end. -/
theorem dictInsert_not_mem (d : List (String × String)) (k v : String)
    (h : ∀ p ∈ d, p.1 ≠ k) : dictInsert d k v = d ++ [(k, v)] := by
  unfold dictInsert
  rw [if_neg]
  intro hany
  obtain ⟨q, hq, hqk⟩ := List.any_eq_true.mp hany
  exact h q hq (of_decide_eq_true hqk)

/-- One insertion step preserves the dict invariant: each stored value
is the last processed column with that lowercased, stripped form. -/
theorem dictInsert_last (processed : List String) (d : List (String × String)) (c : String)
    (hinv : ∀ p ∈ d, p.1 = lowerTrim p.2 ∧
      (processed.filter (fun x => decide (lowerTrim x = p.1))).getLast? = some p.2) :
    ∀ p ∈ dictInsert d (lowerTrim c) c, p.1 = lowerTrim p.2 ∧
      ((processed ++ [c]).filter (fun x => decide (lowerTrim x = p.1))).getLast? = some p.2 := by
  have hpos : ∀ k : String, k = lowerTrim c →
      ((processed ++ [c]).filter (fun x => decide (lowerTrim x = k))).getLast? = some c := by
    intro k hk
    rw [List.filter_append]
    have : [c].filter (fun x => decide (lowerTrim x = k)) = [c] := by
      simp [hk]
    rw [this, List.getLast?_concat]
  have hneg : ∀ (p : String × String), p.1 ≠ lowerTrim c → p ∈ d →
      p.1 = lowerTrim p.2 ∧
        ((processed ++ [c]).filter (fun x => decide (lowerTrim x = p.1))).getLast? = some p.2 := by
    intro p hpk hp
    obtain ⟨h1, h2⟩ := hinv p hp
    refine ⟨h1, ?_⟩
    rw [List.filter_append]
    have : [c].filter (fun x => decide (lowerTrim x = p.1)) = [] := by
      simp
      intro h
      exact hpk h.symm
    rw [this, List.append_nil]
    exact h2
  intro p hp
  unfold dictInsert at hp
  by_cases h : d.any (fun q => decide (q.1 = lowerTrim c)) = true
  · rw [if_pos h] at hp
    rcases List.mem_map.mp hp with ⟨q, hq, rfl⟩
    by_cases hqk : q.1 = lowerTrim c
    · rw [if_pos hqk]
      exact ⟨rfl, hpos _ rfl⟩
    · rw [if_neg hqk]
      exact hneg q hqk hq
  · rw [if_neg h] at hp
    rcases List.mem_append.mp hp with hpd | hpk
    · have hne : p.1 ≠ lowerTrim c := by
        intro hk
        exact h (List.any_eq_true.mpr ⟨p, hpd, decide_eq_true hk⟩)
      exact hneg p hne hpd
    · rw [List.mem_singleton.mp hpk]
      exact ⟨rfl, hpos _ rfl⟩

/-- The fold that builds the dict keeps the invariant over the
processed prefix of the column list. -/
theorem buildCols_go_last (cs : List String) :
    ∀ (processed : List String) (d : List (String × String)),
      (∀ p ∈ d, p.1 = lowerTrim p.2 ∧
        (processed.filter (fun x => decide (lowerTrim x = p.1))).getLast? = some p.2) →
      ∀ p ∈ cs.foldl (fun d c => dictInsert d (lowerTrim c) c) d,
        p.1 = lowerTrim p.2 ∧
          ((processed ++ cs).filter (fun x => decide (lowerTrim x = p.1))).getLast? = some p.2 := by
  induction cs with
  | nil =>
    intro processed d h
    simpa using h
  | cons c cs ih =>
    intro processed d h
    rw [List.foldl_cons]
    have h' := dictInsert_last processed d c h
    have := ih (processed ++ [c]) _ h'
    simpa [List.append_assoc] using this

/-- Every dict entry stores, under the lowercased stripped form as the
key, the last column of the table with that form. -/
theorem buildCols_last (columns : List String) :
    ∀ p ∈ buildCols columns, p.1 = lowerTrim p.2 ∧
      (columns.filter (fun x => decide (lowerTrim x = p.1))).getLast? = some p.2 := by
  have := buildCols_go_last columns [] [] (by intro p hp; cases hp)
  simpa [buildCols] using this

/-- Keys of the fold state, generalized over the initial dict. -/
theorem buildCols_go_key (cs : List String) :
    ∀ (d : List (String × String)) (s : String),
      (∃ p ∈ cs.foldl (fun d c => dictInsert d (lowerTrim c) c) d, p.1 = s) ↔
        (∃ p ∈ d, p.1 = s) ∨ ∃ c ∈ cs, lowerTrim c = s := by
  induction cs with
  | nil =>
    intro d s
    simp
  | cons c cs ih =>
    intro d s
    rw [List.foldl_cons, ih, dictInsert_key_iff, List.exists_mem_cons_iff]
    exact or_assoc

/-- The dict keys are exactly the lowercased stripped column names. -/
theorem buildCols_key_iff (columns : List String) (s : String) :
    (∃ p ∈ buildCols columns, p.1 = s) ↔ ∃ c ∈ columns, lowerTrim c = s := by
  have := buildCols_go_key columns [] s
  simpa [buildCols] using this

/-- With pairwise distinct lowercased stripped forms the dict is just
the column list paired with its forms, in order. -/
theorem buildCols_nodup (cs : List String) :
    ∀ d : List (String × String),
      (cs.map lowerTrim).Nodup →
      (∀ p ∈ d, ∀ c ∈ cs, p.1 ≠ lowerTrim c) →
      cs.foldl (fun d c => dictInsert d (lowerTrim c) c) d =
        d ++ cs.map (fun c => (lowerTrim c, c)) := by
  induction cs with
  | nil =>
    intro d _ _
    simp
  | cons c cs ih =>
    intro d hnd hdisj
    have hnd' : (lowerTrim c :: cs.map lowerTrim).Nodup := by simpa using hnd
    obtain ⟨hnotin, hndcs⟩ := List.nodup_cons.mp hnd'
    rw [List.foldl_cons,
      dictInsert_not_mem d (lowerTrim c) c
        (fun p hp => hdisj p hp c (List.mem_cons_self _ _)),
      ih (d ++ [(lowerTrim c, c)]) hndcs ?_]
    · simp
    · intro p hp c' hc'
      rcases List.mem_append.mp hp with hpd | hpc
      · exact hdisj p hpd c' (List.mem_cons_of_mem _ hc')
      · intro hk
        apply hnotin
        have hk' : lowerTrim c = lowerTrim c' := by
          rw [List.mem_singleton.mp hpc] at hk
          exact hk
        rw [hk']
        exact List.mem_map_of_mem lowerTrim hc'

/-- Searching the paired list for a key predicate is searching the
columns for the predicate on their forms. -/
theorem find?_map_pair (P : String → Bool) (columns : List String) :
    ((columns.map (fun c => (lowerTrim c, c))).find? (fun p => P p.1)).map (fun p => p.2) =
      columns.find? (fun c => P (lowerTrim c)) := by
  induction columns with
  | nil => rfl
  | cons c cs ih =>
    rw [List.map_cons, List.find?_cons, List.find?_cons]
    cases h : P (lowerTrim c) with
    | true => rfl
    | false => exact ih

/-- Claim C10: whenever the column resolver returns a column, that
column is the last one, in original column order, among all columns
sharing its lowercased trimmed form; hence when two or more column
names share the same form, earlier duplicates are shadowed by the
dictionary keyed on the form and can never be returned. -/
theorem claim_C10_duplicate_shadowing (columns candidates : List String) (c : String)
    (h : find_column columns candidates = some c) :
    (columns.filter (fun x => decide (lowerTrim x = lowerTrim c))).getLast? = some c := by
  unfold find_column at h
  obtain ⟨cand, _, hf⟩ := List.exists_of_findSome?_eq_some h
  obtain ⟨p, hfind, hp2⟩ := Option.map_eq_some'.mp hf
  have hmem := List.mem_of_find?_eq_some hfind
  obtain ⟨hkey, hlast⟩ := buildCols_last columns p hmem
  rw [hp2] at hkey hlast
  rw [← hkey]
  exact hlast

/-- Witness for claim C10: with columns From_App and FROM_APP, which
share the lowercased trimmed form from_app, the resolver returns the
later column FROM_APP, and it is the last column with that form. -/
theorem claim_C10_witness :
    find_column ["From_App", "FROM_APP"] ["from_app"] = some "FROM_APP" ∧
      (["From_App", "FROM_APP"].filter
        (fun x => decide (lowerTrim x = lowerTrim "FROM_APP"))).getLast? = some "FROM_APP" :=
  ⟨by decide, claim_C10_duplicate_shadowing ["From_App", "FROM_APP"] ["from_app"] "FROM_APP"
    (by decide)⟩

/-- Counterexample to claim C2 as stated: with the duplicate lowercased
forms of From_App and FROM_APP, the resolver returns FROM_APP, while
the first actual column name whose lowercased trimmed form contains the
candidate is From_App. -/
theorem claim_C2_counterexample :
    find_column ["From_App", "FROM_APP"] ["from_app"] = some "FROM_APP" ∧
      find_column_spec ["From_App", "FROM_APP"] ["from_app"] = some "From_App" ∧
      ("FROM_APP" : String) ≠ ("From_App" : String) := by
  refine ⟨by decide, by decide, by decide⟩

/-- Claim C2 as amended: when the lowercased trimmed forms of the
column names are pairwise distinct the resolver agrees with the
spec-side first-match function (candidates in priority order, columns
in original order); and for every list of column names it returns
absent exactly when no lowercased trimmed column form contains any
candidate. -/
theorem claim_C2_amended :
    (∀ columns candidates : List String, (columns.map lowerTrim).Nodup →
      find_column columns candidates = find_column_spec columns candidates) ∧
    ∀ columns candidates : List String,
      (find_column columns candidates = none ↔
        ∀ c ∈ columns, ∀ cand ∈ candidates, isSubList cand.data (lowerTrim c).data = false) := by
  constructor
  · intro columns candidates hnd
    unfold find_column find_column_spec
    have hb : buildCols columns = columns.map (fun c => (lowerTrim c, c)) := by
      have := buildCols_nodup columns [] hnd (by intro p hp; cases hp)
      simpa [buildCols] using this
    rw [hb]
    congr 1
    funext cand
    exact find?_map_pair (fun s => isSubList cand.data s.data) columns
  · intro columns candidates
    unfold find_column
    rw [List.findSome?_eq_none_iff]
    constructor
    · intro h c hc cand hcand
      have hnone := Option.map_eq_none'.mp (h cand hcand)
      have := List.find?_eq_none.mp hnone
      by_contra hsub
      have hsub' : isSubList cand.data (lowerTrim c).data = true := by
        cases hval : isSubList cand.data (lowerTrim c).data with
        | true => rfl
        | false => exact absurd hval hsub
      obtain ⟨p, hp, hpk⟩ := (buildCols_key_iff columns (lowerTrim c)).mpr ⟨c, hc, rfl⟩
      apply this p hp
      rw [hpk]
      exact hsub'
    · intro h cand hcand
      rw [Option.map_eq_none', List.find?_eq_none]
      intro p hp
      obtain ⟨c, hc, hck⟩ := (buildCols_key_iff columns p.1).mp ⟨p, hp, rfl⟩
      rw [← hck]
      intro hsub
      rw [h c hc cand hcand] at hsub
      cases hsub

/-- Witness for claim C2: the columns From_App and To_App have distinct
lowercased forms, the resolver and the spec-side function agree there,
and both return From_App for the source candidates. -/
theorem claim_C2_witness :
    (["From_App", "To_App"].map lowerTrim).Nodup ∧
      find_column ["From_App", "To_App"] fromCandidates =
        find_column_spec ["From_App", "To_App"] fromCandidates ∧
      find_column ["From_App", "To_App"] fromCandidates = some "From_App" :=
  ⟨by decide, claim_C2_amended.1 ["From_App", "To_App"] fromCandidates (by decide), by decide⟩

/-- Counterexample to claim C1 as stated: on a table whose columns are
exactly SourceApp, DestApp and IF_Name, the resolver finds none of the
three required columns, since no candidate substring occurs in any
lowercased trimmed column name. -/
theorem claim_C1_counterexample :
    find_column ["SourceApp", "DestApp", "IF_Name"] fromCandidates = none ∧
      find_column ["SourceApp", "DestApp", "IF_Name"] toCandidates = none ∧
      find_column ["SourceApp", "DestApp", "IF_Name"] ifaceCandidates = none := by
  refine ⟨by decide, by decide, by decide⟩

/-- Claim C1 as amended: for a table whose column names are exactly
SourceApp, DestApp, IF_Name, the resolver finds none of the three
required columns, and the program terminates with the required-columns
error, exit status 3, printing the unresolved fields and the verbatim
column list. -/
theorem claim_C1_amended :
    run true { columns := ["SourceApp", "DestApp", "IF_Name"], rows := [] } none =
      Outcome.missingColumns none none none ["SourceApp", "DestApp", "IF_Name"] ∧
      exitCode (run true { columns := ["SourceApp", "DestApp", "IF_Name"], rows := [] } none) = 3 ∧
      outputLines (run true { columns := ["SourceApp", "DestApp", "IF_Name"], rows := [] } none) =
        ["Could not locate required columns. Found:",
         "  from_col: None", "  to_col: None", "  iface_col: None",
         "Columns present in the sheet:",
         " - SourceApp", " - DestApp", " - IF_Name"] := by
  refine ⟨by decide, by decide, by decide⟩

/-- Claim C3: a row whose source, destination and interface name cells
all normalize to nonempty strings contributes exactly one edge carrying
those trimmed values, in front of the edges of the remaining rows; a
row for which any of the three is missing or blank contributes nothing
and processing continues with the remaining rows.  Both branches are
total, so no error is raised. -/
theorem claim_C3_normalizer (fc tc ic : String) (itc dc : Option String)
    (row : String → Cell) (rows : List (String → Cell)) :
    (∀ s d i : String, normalize (row fc) = some s → normalize (row tc) = some d →
      normalize (row ic) = some i → s ≠ "" → d ≠ "" → i ≠ "" →
      tableEdges fc tc ic itc dc (row :: rows) =
        { src := s, dst := d, iface := i
          inttype := match itc with
            | some c => normalize (row c)
            | none => none
          dir := coerceDirection (match dc with
            | some c => row c
            | none => Cell.na) } :: tableEdges fc tc ic itc dc rows) ∧
      ((normalize (row fc) = none ∨ normalize (row fc) = some "" ∨
        normalize (row tc) = none ∨ normalize (row tc) = some "" ∨
        normalize (row ic) = none ∨ normalize (row ic) = some "") →
        tableEdges fc tc ic itc dc (row :: rows) = tableEdges fc tc ic itc dc rows) := by
  constructor
  · intro s d i hs hd hi hsne hdne hine
    have hs' : s.isEmpty = false := by
      cases h : s.isEmpty with
      | false => rfl
      | true => exact absurd ((String.isEmpty_iff s).mp h) hsne
    have hd' : d.isEmpty = false := by
      cases h : d.isEmpty with
      | false => rfl
      | true => exact absurd ((String.isEmpty_iff d).mp h) hdne
    have hi' : i.isEmpty = false := by
      cases h : i.isEmpty with
      | false => rfl
      | true => exact absurd ((String.isEmpty_iff i).mp h) hine
    unfold tableEdges
    rw [List.filterMap_cons]
    have hrow : rowEdge fc tc ic itc dc row =
        some { src := s, dst := d, iface := i
               inttype := match itc with
                 | some c => normalize (row c)
                 | none => none
               dir := coerceDirection (match dc with
                 | some c => row c
                 | none => Cell.na) } := by
      unfold rowEdge
      rw [hs, hd, hi]
      simp [hs', hd', hi']
    rw [hrow]
  · intro hbad
    unfold tableEdges
    rw [List.filterMap_cons]
    suffices h : rowEdge fc tc ic itc dc row = none by rw [h]
    unfold rowEdge
    rcases hbad with h | h | h | h | h | h <;>
      cases hfc : normalize (row fc) <;>
      cases htc : normalize (row tc) <;>
      cases hic : normalize (row ic) <;>
      simp_all [show "".isEmpty = true from rfl]

/-- Witness for claim C3: the sample row strips the source to A and
produces exactly one edge; a row of missing cells produces none. -/
theorem claim_C3_witness :
    normalize (sampleRow "F") = some "A" ∧
      tableEdges "F" "T" "I" none none [sampleRow] =
        [{ src := "A", dst := "B", iface := "x", inttype := none, dir := none }] ∧
      tableEdges "F" "T" "I" none none [fun _ => Cell.na] = [] :=
  ⟨rfl,
   (claim_C3_normalizer "F" "T" "I" none none sampleRow []).1 "A" "B" "x" rfl rfl rfl
     (by decide) (by decide) (by decide),
   (claim_C3_normalizer "F" "T" "I" none none (fun _ => Cell.na) []).2 (Or.inl rfl)⟩

/-! Lemmas for the direction coercion. -/

/-- Whitespace characters are not decimal digits. -/
theorem pyIsSpace_not_digit (c : Char) (h : pyIsSpace c = true) : c.isDigit = false := by
  unfold pyIsSpace at h
  simp only [Bool.or_eq_true, beq_iff_eq] at h
  rcases h with ((((h | h) | h) | h) | h) | h <;> rw [h] <;> decide

/-- Dropping a whitespace run does not change the digit characters. -/
theorem filter_digit_dropWhile (l : List Char) :
    (l.dropWhile pyIsSpace).filter Char.isDigit = l.filter Char.isDigit := by
  induction l with
  | nil => rfl
  | cons c t ih =>
    by_cases h : pyIsSpace c = true
    · rw [List.dropWhile_cons_of_pos h, ih,
        List.filter_cons_of_neg (by rw [pyIsSpace_not_digit c h]; exact Bool.false_ne_true)]
    · rw [List.dropWhile_cons_of_neg h]

/-- Stripping surrounding whitespace does not change the digit
characters of a string. -/
theorem filter_digit_pyStrip (s : String) :
    (pyStrip s).data.filter Char.isDigit = s.data.filter Char.isDigit := by
  show (((s.data.dropWhile pyIsSpace).reverse.dropWhile pyIsSpace).reverse).filter Char.isDigit =
    s.data.filter Char.isDigit
  rw [List.filter_reverse, filter_digit_dropWhile, List.filter_reverse, List.reverse_reverse,
    filter_digit_dropWhile]

/-- Truncating the rational value of an integer gives it back. -/
theorem ratTrunc_int (n : Int) : ratTrunc (mkRat n 1) = n := by
  unfold ratTrunc
  rw [Rat.mkRat_one, Rat.num_intCast, Rat.den_intCast]
  exact Int.tdiv_one n

/-- Claim C4: the direction coercion agrees everywhere with the
spec-described algorithm: absent gives absent, numeric values and
numeric-looking text are truncated to an integer, otherwise the decimal
digit characters of the text are concatenated and parsed, absent when
there are none; and it satisfies the spec test vectors.  It is a total
function, so the coercion never raises. -/
theorem claim_C4_direction :
    (∀ raw : Cell, coerceDirection raw = directionSpec raw) ∧
      coerceDirection Cell.na = none ∧
      coerceDirection (Cell.int 2) = some 2 ∧
      coerceDirection (Cell.str "2.0") = some 2 ∧
      coerceDirection (Cell.str "two") = none ∧
      coerceDirection (Cell.str "dir: 2 way") = some 2 ∧
      coerceDirection (Cell.str "") = none ∧
      coerceDirection (Cell.str "   ") = none := by
  refine ⟨?_, rfl, by decide, by decide, by decide, by decide, by decide, by decide⟩
  intro raw
  cases raw with
  | na => rfl
  | int n =>
    show some (ratTrunc (mkRat n 1)) = some n
    rw [ratTrunc_int]
  | str s =>
    simp only [coerceDirection, directionSpec]
    cases hq : pyFloat? s with
    | some q => rfl
    | none => simp only [filter_digit_pyStrip]

/-- Claim C5: the focus filter retains exactly the edges whose
lowercased source or destination equals the lowercased focus string, an
exact match rather than a substring match; concretely, focus CRM keeps
an edge towards crm, drops one towards CRM-Legacy, and the full run
with focus CRM emits only the crm edge. -/
theorem claim_C5_focus :
    (∀ (f : String) (edges : List Edge) (e : Edge),
      e ∈ focusFilter f edges ↔
        e ∈ edges ∧ (pyLower e.src = pyLower f ∨ pyLower e.dst = pyLower f)) ∧
      focusFilter "CRM"
        [{ src := "App1", dst := "crm", iface := "I1", inttype := none, dir := none },
         { src := "App1", dst := "CRM-Legacy", iface := "I2", inttype := none, dir := none }] =
        [{ src := "App1", dst := "crm", iface := "I1", inttype := none, dir := none }] ∧
      run true crmTable (some "CRM") = Outcome.output "architecture_CRM"
        (buildDoc [{ src := "App1", dst := "crm", iface := "I1", inttype := none, dir := none }]) := by
  refine ⟨?_, by decide, by decide⟩
  intro f edges e
  unfold focusFilter
  rw [List.mem_filter]
  simp

/-- Claim C6: when the required columns resolve but the edge list after
normalization and optional focus filtering is empty, the run reports no
valid edges, terminates with exit status 0, writes no files and does
not create the output directory. -/
theorem claim_C6_no_edges (t : Table) (focusArg : Option String)
    (hres : truthy (resolvedFrom t) = true ∧ truthy (resolvedTo t) = true ∧
      truthy (resolvedIface t) = true)
    (hempty : finalEdges t focusArg = []) :
    run true t focusArg = Outcome.noEdges ∧
      exitCode (run true t focusArg) = 0 ∧
      outputLines (run true t focusArg) = ["No valid edges found in the spreadsheet."] ∧
      writtenFiles (run true t focusArg) = [] ∧
      createsOutDir (run true t focusArg) = false := by
  have hrun : run true t focusArg = Outcome.noEdges := by
    unfold run
    simp [hres.1, hres.2.1, hres.2.2, hempty]
  rw [hrun]
  exact ⟨rfl, rfl, rfl, rfl, rfl⟩

/-- Witness for claim C6: the one-row table whose row has only missing
cells resolves its columns, yields no edges, and the run reports no
valid edges with exit status 0. -/
theorem claim_C6_witness :
    (truthy (resolvedFrom emptyRowTable) = true ∧ truthy (resolvedTo emptyRowTable) = true ∧
      truthy (resolvedIface emptyRowTable) = true) ∧
      finalEdges emptyRowTable none = [] ∧
      run true emptyRowTable none = Outcome.noEdges ∧
      exitCode (run true emptyRowTable none) = 0 :=
  ⟨⟨by decide, by decide, by decide⟩, by decide,
   (claim_C6_no_edges emptyRowTable none ⟨by decide, by decide, by decide⟩ (by decide)).1,
   (claim_C6_no_edges emptyRowTable none ⟨by decide, by decide, by decide⟩ (by decide)).2.1⟩

/-- Claim C7: the three terminations use the distinct exit statuses 0,
2 and 3; when a required column fails to resolve the run stops at the
missing-columns outcome with status 3, printing the resolution of each
required field and every column name verbatim, and writes no files and
creates no directory. -/
theorem claim_C7_exit_statuses (t : Table) (focusArg : Option String)
    (hfail : truthy (resolvedFrom t) = false ∨ truthy (resolvedTo t) = false ∨
      truthy (resolvedIface t) = false) :
    run true t focusArg =
        Outcome.missingColumns (resolvedFrom t) (resolvedTo t) (resolvedIface t) t.columns ∧
      exitCode (run true t focusArg) = 3 ∧
      (∀ (t' : Table) (fa' : Option String), exitCode (run false t' fa') = 2) ∧
      exitCode Outcome.noEdges = 0 ∧
      (∀ (b : String) (d : GraphDoc), exitCode (Outcome.output b d) = 0) ∧
      ("  from_col: " ++ optShow (resolvedFrom t)) ∈ outputLines (run true t focusArg) ∧
      ("  to_col: " ++ optShow (resolvedTo t)) ∈ outputLines (run true t focusArg) ∧
      ("  iface_col: " ++ optShow (resolvedIface t)) ∈ outputLines (run true t focusArg) ∧
      (∀ c ∈ t.columns, (" - " ++ c) ∈ outputLines (run true t focusArg)) ∧
      writtenFiles (run true t focusArg) = [] ∧
      createsOutDir (run true t focusArg) = false := by
  have hrun : run true t focusArg =
      Outcome.missingColumns (resolvedFrom t) (resolvedTo t) (resolvedIface t) t.columns := by
    unfold run
    rcases hfail with h | h | h <;> simp [h]
  rw [hrun]
  refine ⟨rfl, rfl, fun t' fa' => rfl, rfl, fun b d => rfl, ?_, ?_, ?_, ?_, rfl, rfl⟩
  · exact List.mem_append_left _ (by simp)
  · exact List.mem_append_left _ (by simp)
  · exact List.mem_append_left _ (by simp)
  · intro c hc
    exact List.mem_append_right _ (List.mem_map_of_mem _ hc)

/-- Witness for claim C7: a table with the single column A resolves no
required field; the run stops with the missing-columns outcome, exit
status 3, and prints the column verbatim. -/
theorem claim_C7_witness :
    (truthy (resolvedFrom { columns := ["A"], rows := [] }) = false ∨
      truthy (resolvedTo { columns := ["A"], rows := [] }) = false ∨
      truthy (resolvedIface { columns := ["A"], rows := [] }) = false) ∧
      run true { columns := ["A"], rows := [] } none =
        Outcome.missingColumns none none none ["A"] ∧
      exitCode (run true { columns := ["A"], rows := [] } none) = 3 ∧
      (" - A") ∈ outputLines (run true { columns := ["A"], rows := [] } none) :=
  ⟨Or.inl (by decide),
   (claim_C7_exit_statuses { columns := ["A"], rows := [] } none (Or.inl (by decide))).1,
   (claim_C7_exit_statuses { columns := ["A"], rows := [] } none (Or.inl (by decide))).2.1,
   (claim_C7_exit_statuses { columns := ["A"], rows := [] } none (Or.inl (by decide))).2.2.2.2.2.2.2.2.1
     "A" (by decide)⟩

/-- Claim C8: every emitted edge statement carries the color computed
from the interface type (file gives red, else webservice or web service
gives blue, else no explicit color, case-insensitively) on both the
edge and its label, and a both-ended arrowhead exactly when the coerced
direction equals 2, a forward arrowhead otherwise; including the spec
test vectors. -/
theorem claim_C8_styling :
    (∀ e : Edge, edgeStmtOf e =
      { src := e.src, dst := e.dst, label := e.iface, color := edgeColor e.inttype
        fontcolor := edgeColor e.inttype, dir := edgeDir e.dir }) ∧
      (∀ t : String, pyContains (pyLower t) ("file") = true →
        edgeColor (some t) = some "red") ∧
      (∀ t : String, pyContains (pyLower t) ("file") = false →
        (pyContains (pyLower t) ("webservice") || pyContains (pyLower t) ("web service")) = true →
        edgeColor (some t) = some "blue") ∧
      (∀ t : String, pyContains (pyLower t) ("file") = false →
        pyContains (pyLower t) ("webservice") = false →
        pyContains (pyLower t) ("web service") = false →
        edgeColor (some t) = none) ∧
      edgeColor none = none ∧
      (∀ d : Option Int, edgeDir d = "both" ↔ d = some 2) ∧
      edgeColor (some "File Transfer") = some "red" ∧
      edgeColor (some "WebService") = some "blue" ∧
      edgeColor (some "Web Service") = some "blue" ∧
      edgeColor (some "Message Queue") = none ∧
      edgeDir (some 2) = "both" ∧ edgeDir (some 1) = "forward" ∧
      edgeDir none = "forward" ∧ edgeDir (some 3) = "forward" := by
  have hempty : ∀ t : String, t.isEmpty = true → pyContains (pyLower t) ("file") = false := by
    intro t ht
    rw [(String.isEmpty_iff t).mp ht]
    decide
  refine ⟨fun e => rfl, ?_, ?_, ?_, rfl, ?_,
    by decide, by decide, by decide, by decide, rfl, by decide, rfl, by decide⟩
  · intro t h
    have ht : t.isEmpty = false := by
      cases hv : t.isEmpty with
      | false => rfl
      | true => rw [hempty t hv] at h; cases h
    simp [edgeColor, ht, h]
  · intro t hf hw
    have ht : t.isEmpty = false := by
      cases hv : t.isEmpty with
      | false => rfl
      | true =>
        rw [(String.isEmpty_iff t).mp hv] at hw
        cases hw
    simp [edgeColor, ht, hf, hw]
  · intro t hf hw1 hw2
    cases hv : t.isEmpty with
    | true => simp [edgeColor, hv]
    | false => simp [edgeColor, hv, hf, hw1, hw2]
  · intro d
    by_cases hd : d = some 2
    · simp [edgeDir, hd]
    · rw [edgeDir, if_neg hd]
      constructor
      · intro habs
        exact absurd habs (by decide)
      · intro habs
        exact absurd habs hd

/-- Witness for claim C8: the interface type File Transfer contains
file after lowercasing, so its edge and label color are red. -/
theorem claim_C8_witness :
    pyContains (pyLower "File Transfer") ("file") = true ∧
      edgeColor (some "File Transfer") = some "red" :=
  ⟨by decide, claim_C8_styling.2.1 "File Transfer" (by decide)⟩

/-- The sorting relation used for the node statements agrees with the
standard string order. -/
theorem strLe_iff_le (a b : String) : strLe a b ↔ a ≤ b := by
  rw [String.le_iff_toList_le]
  exact Iff.rfl

/-- Claim C9: the run is a deterministic function of the input table
and focus option; the emitted node statements are the endpoints of the
surviving edges, lexicographically sorted and without duplicates, and
the edge statements are exactly the image of the surviving edges in
encounter order, so parallel edges are preserved. -/
theorem claim_C9_determinism :
    (∀ (fe₁ fe₂ : Bool) (t₁ t₂ : Table) (fa₁ fa₂ : Option String),
      fe₁ = fe₂ → t₁ = t₂ → fa₁ = fa₂ → run fe₁ t₁ fa₁ = run fe₂ t₂ fa₂) ∧
      (∀ edges : List Edge, List.Sorted (· ≤ ·) (buildDoc edges).nodes) ∧
      (∀ edges : List Edge, (buildDoc edges).nodes.Nodup) ∧
      (∀ (edges : List Edge) (s : String),
        s ∈ (buildDoc edges).nodes ↔ ∃ e ∈ edges, s = e.src ∨ s = e.dst) ∧
      (∀ edges : List Edge, (buildDoc edges).edgeStmts = edges.map edgeStmtOf) ∧
      (∀ edges : List Edge, (buildDoc edges).edgeStmts.length = edges.length) := by
  haveI htot : IsTotal String strLe := ⟨fun a b => le_total a.data b.data⟩
  haveI htrans : IsTrans String strLe := ⟨fun a b c hab hbc => le_trans hab hbc⟩
  refine ⟨?_, ?_, ?_, ?_, fun edges => rfl, ?_⟩
  · intro fe₁ fe₂ t₁ t₂ fa₁ fa₂ h1 h2 h3
    rw [h1, h2, h3]
  · intro edges
    have hs := List.sorted_insertionSort strLe (endpointList edges).dedup
    exact hs.imp (fun hab => (strLe_iff_le _ _).mp hab)
  · intro edges
    exact ((List.perm_insertionSort strLe _).nodup_iff).mpr (List.nodup_dedup _)
  · intro edges s
    show s ∈ nodeList edges ↔ _
    unfold nodeList
    rw [(List.perm_insertionSort strLe _).mem_iff, List.mem_dedup]
    unfold endpointList
    rw [List.mem_flatMap]
    constructor
    · rintro ⟨e, he, hs⟩
      rcases List.mem_cons.mp hs with h | h
      · exact ⟨e, he, Or.inl h⟩
      · exact ⟨e, he, Or.inr (List.mem_singleton.mp h)⟩
    · rintro ⟨e, he, h | h⟩
      · exact ⟨e, he, List.mem_cons.mpr (Or.inl h)⟩
      · exact ⟨e, he, List.mem_cons.mpr (Or.inr (List.mem_singleton.mpr h))⟩
  · intro edges
    show (edges.map edgeStmtOf).length = edges.length
    exact List.length_map _ _

/-- Witness for claim C9: determinism applied to two equal runs of the
concrete crm table. -/
theorem claim_C9_witness :
    run true crmTable (some "CRM") = run true crmTable (some "CRM") :=
  claim_C9_determinism.1 true true crmTable crmTable (some "CRM") (some "CRM") rfl rfl rfl

end GenerateDiagram
